import Mathlib

/-!
Verification of the spatial-grouping subsystem (LGraphGroup) of a node-based
visual graph editor, against its design specification.

Modelling conventions:
* JS numbers are modelled by an extended rational type: not-a-number,
  negative infinity, positive infinity, or a finite exact rational.
  The rounding that a Float32Array performs on store is abstracted to exact
  arithmetic; no claim in scope depends on float32 precision.
* The 4-slot bounding buffer of a group is a record of four such values
  (slots: x, y, width, height); the position and size accessors are views
  over slots 0-1 and 2-3.
* Node references are heap identifiers (natural numbers) resolved through an
  explicit heap function, so that shared mutation (a group dragging its
  member nodes) is represented faithfully.
-/

set_option autoImplicit false

namespace LiteGraph

/-- JS number semantics over exact rationals: NaN, the two infinities, or a
finite value. -/
inductive ERat where
  | nan
  | negInf
  | posInf
  | fin (q : ℚ)
deriving DecidableEq, Repr

/-- JS addition on extended numbers. -/
def eadd : ERat → ERat → ERat
  | .nan, _ => .nan
  | _, .nan => .nan
  | .posInf, .negInf => .nan
  | .negInf, .posInf => .nan
  | .posInf, _ => .posInf
  | _, .posInf => .posInf
  | .negInf, _ => .negInf
  | _, .negInf => .negInf
  | .fin a, .fin b => .fin (a + b)

/-- JS subtraction on extended numbers. -/
def esub : ERat → ERat → ERat
  | .nan, _ => .nan
  | _, .nan => .nan
  | .posInf, .posInf => .nan
  | .negInf, .negInf => .nan
  | .posInf, _ => .posInf
  | .negInf, _ => .negInf
  | .fin _, .posInf => .negInf
  | .fin _, .negInf => .posInf
  | .fin a, .fin b => .fin (a - b)

/-- JS Math.min on extended numbers. -/
def emin : ERat → ERat → ERat
  | .nan, _ => .nan
  | _, .nan => .nan
  | .negInf, _ => .negInf
  | _, .negInf => .negInf
  | .posInf, b => b
  | a, .posInf => a
  | .fin a, .fin b => .fin (min a b)

/-- JS Math.max on extended numbers. -/
def emax : ERat → ERat → ERat
  | .nan, _ => .nan
  | _, .nan => .nan
  | .posInf, _ => .posInf
  | _, .posInf => .posInf
  | .negInf, b => b
  | a, .negInf => a
  | .fin a, .fin b => .fin (max a b)

/-- JS non-strict comparison (false whenever NaN is involved). -/
def ele : ERat → ERat → Bool
  | .nan, _ => false
  | _, .nan => false
  | .negInf, _ => true
  | _, .negInf => false
  | _, .posInf => true
  | .posInf, _ => false
  | .fin a, .fin b => decide (a ≤ b)

/-- JS strict comparison (false whenever NaN is involved). -/
def elt : ERat → ERat → Bool
  | .nan, _ => false
  | _, .nan => false
  | _, .negInf => false
  | .negInf, _ => true
  | .posInf, _ => false
  | _, .posInf => true
  | .fin a, .fin b => decide (a < b)

/-- JS Math.round on a finite value: floor of the value plus one half
(halves round toward positive infinity). -/
def jsRound (q : ℚ) : ℚ := ((⌊q + 1 / 2⌋ : ℤ) : ℚ)

/-- JS Math.round on extended numbers. -/
def eround : ERat → ERat
  | .nan => .nan
  | .negInf => .negInf
  | .posInf => .posInf
  | .fin q => .fin (jsRound q)

/-- Modelled from the spec: the per-node title-bar height constant
(LiteGraph.NODE_TITLE_HEIGHT). The constant lives in the litegraph core,
outside this fragment; its upstream value is 30. No claim depends on the
exact value. -/
def NODE_TITLE_HEIGHT : ℚ := 30

/-- The 4-slot bounding buffer: slots are x, y, width, height. -/
structure Bounding where
  b0 : ERat
  b1 : ERat
  b2 : ERat
  b3 : ERat
deriving DecidableEq, Repr

/-- The open flags bag of a group; only the pinned key carries logic in
this fragment. -/
structure GroupFlags where
  pinned : Bool
deriving DecidableEq, Repr

/-- The slice of a collaborator node that the group reads or writes.
The bounding-box fields are Modelled from the spec: the getBounding query
of the node type lives outside this fragment, so the box a node reports is
kept as free data. -/
structure NodeState where
  posx : ℚ
  posy : ℚ
  sizew : ℚ
  sizeh : ℚ
  ty : String
  collapsed : Bool
  collapsedWidth : Option ℚ
  boundX : ℚ
  boundY : ℚ
  boundW : ℚ
  boundH : ℚ
deriving DecidableEq, Repr

/-- The group state: LGraphGroup fields read or written by the operations
in scope. The nodes field is the cached member list, held as heap
identifiers. -/
structure LGraphGroup where
  title : String
  color : String
  font_size : ℚ
  bounding : Bounding
  flags : GroupFlags
  nodes : List ℕ
deriving DecidableEq, Repr

/-- The world a group operates in: the group itself, the node list of the
owning graph, and the heap resolving node identifiers to node state. -/
structure GraphWorld where
  group : LGraphGroup
  graphNodes : List ℕ
  heap : ℕ → NodeState

/-- Modelled from the spec: default group color; the palette lookup lives in
the canvas module outside this fragment, with a gray fallback. -/
def GROUP_DEFAULT_COLOR : String := "#AAA"

/-- The constructor defaults: title Group, font size 24, a 140 by 80 box at
(10, 10), no members, empty flags. -/
def defaultGroup : LGraphGroup :=
  { title := "Group"
    color := GROUP_DEFAULT_COLOR
    font_size := 24
    bounding := ⟨.fin 10, .fin 10, .fin 140, .fin 80⟩
    flags := { pinned := false }
    nodes := [] }

/-- Derived title-bar height of the group: font size times 1.4. -/
def titleHeight (g : LGraphGroup) : ℚ := g.font_size * (7 / 5)

/-- The pos setter: ignores a missing or too-short value, otherwise writes
slots 0 and 1 in place. -/
def setPos (g : LGraphGroup) (v : Option (List ERat)) : LGraphGroup :=
  match v with
  | some (a :: b :: _) =>
    { g with bounding := { g.bounding with b0 := a, b1 := b } }
  | _ => g

/-- The size setter: ignores a missing or too-short value, otherwise clamps
each component to its minimum (140, 80) and writes slots 2 and 3. -/
def setSize (g : LGraphGroup) (v : Option (List ERat)) : LGraphGroup :=
  match v with
  | some (a :: b :: _) =>
    { g with bounding := { g.bounding with
        b2 := emax (.fin 140) a, b3 := emax (.fin 80) b } }
  | _ => g

/-- The pin operation: sets the pinned flag. -/
def pin (g : LGraphGroup) : LGraphGroup :=
  { g with flags := { g.flags with pinned := true } }

/-- The unpin operation: clears the pinned flag. -/
def unpin (g : LGraphGroup) : LGraphGroup :=
  { g with flags := { g.flags with pinned := false } }

/-- The serialized record shape: title, rounded bounding, color, font size,
flags. The flags field is optional on load. -/
structure ISerialisedGroup where
  title : String
  bounding : Bounding
  color : String
  font_size : ℚ
  flags : Option GroupFlags
deriving DecidableEq, Repr

/-- serialize: emits title, the four bounding slots rounded to integers,
color, font size, and the flags bag. -/
def serialize (g : LGraphGroup) : ISerialisedGroup :=
  { title := g.title
    bounding := ⟨eround g.bounding.b0, eround g.bounding.b1,
                 eround g.bounding.b2, eround g.bounding.b3⟩
    color := g.color
    font_size := g.font_size
    flags := some g.flags }

/-- configure: overwrites title, bounding (all four slots), color, flags
(keeping the existing bag when the record has none), and font size only
when the stored font size is truthy (nonzero). -/
def configure (g : LGraphGroup) (o : ISerialisedGroup) : LGraphGroup :=
  { g with
    title := o.title
    bounding := o.bounding
    color := o.color
    flags := o.flags.getD g.flags
    font_size := if o.font_size ≠ 0 then o.font_size else g.font_size }

/-- resize: no-op when pinned; otherwise writes width and height directly
into slots 2 and 3, bypassing the clamped size setter. -/
def resizeW (w : GraphWorld) (width height : ℚ) : GraphWorld :=
  if w.group.flags.pinned then w
  else
    { w with group := { w.group with bounding := { w.group.bounding with
        b2 := .fin width, b3 := .fin height } } }

/-- Shifts the position of one node by a delta. -/
def shiftNode (n : NodeState) (dx dy : ℚ) : NodeState :=
  { n with posx := n.posx + dx, posy := n.posy + dy }

/-- Writes the shifted position of the node at one heap identifier. -/
def updateHeap (h : ℕ → NodeState) (i : ℕ) (dx dy : ℚ) : ℕ → NodeState :=
  fun j => if j = i then shiftNode (h j) dx dy else h j

/-- move: no-op when pinned; otherwise adds the delta to slots 0 and 1
directly, and, unless told to ignore nodes, adds the same delta to the
position of every node in the cached member list. -/
def moveW (w : GraphWorld) (deltax deltay : ℚ) (ignoreNodes : Bool) :
    GraphWorld :=
  if w.group.flags.pinned then w
  else
    let g2 : LGraphGroup :=
      { w.group with bounding := { w.group.bounding with
          b0 := eadd w.group.bounding.b0 (.fin deltax),
          b1 := eadd w.group.bounding.b1 (.fin deltay) } }
    if ignoreNodes then { w with group := g2 }
    else
      { w with
        group := g2,
        heap := w.group.nodes.foldl
          (fun h i => updateHeap h i deltax deltay) w.heap }

/-- The bounding box a node reports, as a 4-slot record. -/
def nodeBounding (n : NodeState) : Bounding :=
  ⟨.fin n.boundX, .fin n.boundY, .fin n.boundW, .fin n.boundH⟩

/-- Modelled from the spec: overlapBounding from the measure module (not in
this fragment) — two boxes overlap iff their intersection has positive
area; a box of zero width or height never overlaps. -/
def overlapBounding (a b : Bounding) : Bool :=
  elt (emax a.b0 b.b0) (emin (eadd a.b0 a.b2) (eadd b.b0 b.b2)) &&
  elt (emax a.b1 b.b1) (emin (eadd a.b1 a.b3) (eadd b.b1 b.b3))

/-- recomputeInsideNodes: clears the member cache and refills it with the
nodes of the owning graph whose reported box overlaps the group box, in
graph order. -/
def recomputeInsideNodes (w : GraphWorld) : GraphWorld :=
  { w with group := { w.group with
      nodes := w.graphNodes.filter
        (fun i => overlapBounding w.group.bounding (nodeBounding (w.heap i))) } }

/-- Truthiness of the optional collapsed-width hint of a node: present and
nonzero. -/
def collapsedWidthTruthy : Option ℚ → Bool
  | none => false
  | some q => decide (q ≠ 0)

/-- Effective top edge of a node during bounds fitting: y minus the title
height constant, except for the Reroute kind which has no title bar. -/
def nodeTop (n : NodeState) : ℚ :=
  n.posy - (if n.ty = "Reroute" then 0 else NODE_TITLE_HEIGHT)

/-- Effective bottom edge of a node during bounds fitting: top plus the
title height constant when collapsed, else y plus height. -/
def nodeBottom (n : NodeState) : ℚ :=
  if n.collapsed then nodeTop n + NODE_TITLE_HEIGHT else n.posy + n.sizeh

/-- Effective right edge of a node during bounds fitting: x plus the rounded
collapsed width when collapsed with a truthy collapsed-width hint, else x
plus width. -/
def nodeRight (n : NodeState) : ℚ :=
  if n.collapsed && collapsedWidthTruthy n.collapsedWidth then
    n.posx + jsRound (n.collapsedWidth.getD 0)
  else n.posx + n.sizew

/-- The accumulator of the bounds-fitting reduce. -/
structure FitBounds where
  left : ERat
  top : ERat
  right : ERat
  bottom : ERat
deriving DecidableEq, Repr

/-- One reduce step of addNodes: min into left and top, max into right and
bottom. -/
def fitStep (acc : FitBounds) (n : NodeState) : FitBounds :=
  { left := emin acc.left (.fin n.posx)
    top := emin acc.top (.fin (nodeTop n))
    right := emax acc.right (.fin (nodeRight n))
    bottom := emax acc.bottom (.fin (nodeBottom n)) }

/-- The initial accumulator of the reduce: infinities. -/
def fitInit : FitBounds := ⟨.posInf, .posInf, .negInf, .negInf⟩

/-- The bounds fold of addNodes over the combined node set: current members
followed by the supplied nodes. -/
def fitFold (w : GraphWorld) (nodeIds : List ℕ) : FitBounds :=
  ((w.group.nodes ++ nodeIds).map w.heap).foldl fitStep fitInit

/-- addNodes (fitAround): folds the union box of the current members plus
the supplied nodes, then assigns position and size through the setters.
The source guard on a missing member array never fires, because the member
array of a constructed group is an array and an array is always truthy in
JS; it is therefore omitted here. -/
def addNodes (w : GraphWorld) (nodeIds : List ℕ) (padding : ℚ) : GraphWorld :=
  { w with
    group :=
      setSize
        (setPos w.group (some
          [esub (fitFold w nodeIds).left (.fin padding),
           esub (esub (fitFold w nodeIds).top (.fin padding))
             (.fin (titleHeight w.group))]))
        (some
          [eadd (esub (fitFold w nodeIds).right (fitFold w nodeIds).left)
             (.fin (padding * 2)),
           eadd (eadd (esub (fitFold w nodeIds).bottom (fitFold w nodeIds).top)
             (.fin (padding * 2))) (.fin (titleHeight w.group))]) }

/-- Modelled from the spec: isInsideRectangle from the measure module (not
in this fragment) — inclusive axis-aligned rectangle membership test. -/
def isInsideRectangle (x y left top width height : ERat) : Bool :=
  ele left x && ele x (eadd left width) &&
  ele top y && ele y (eadd top height)

/-- isPointInTitlebar: tests the point against the rectangle spanning the
group x, y, width and the title-bar height. -/
def isPointInTitlebar (g : LGraphGroup) (x y : ℚ) : Bool :=
  isInsideRectangle (.fin x) (.fin y) g.bounding.b0 g.bounding.b1
    g.bounding.b2 (.fin (titleHeight g))

/-- One public mutation command gated by the pin flag. -/
inductive GroupOp where
  | move (dx dy : ℚ) (ignoreNodes : Bool)
  | resize (width height : ℚ)

/-- Applies one pin-gated command to the world. -/
def applyOp (w : GraphWorld) (op : GroupOp) : GraphWorld :=
  match op with
  | .move dx dy ig => moveW w dx dy ig
  | .resize a b => resizeW w a b

/-- A concrete collaborator node used by the concrete instances below. -/
def sampleNode : NodeState :=
  { posx := 100, posy := 100, sizew := 80, sizeh := 40, ty := "Basic",
    collapsed := false, collapsedWidth := none,
    boundX := 96, boundY := 70, boundW := 88, boundH := 70 }

/-- A world holding a freshly constructed group and an empty graph. -/
def emptyWorld : GraphWorld :=
  { group := defaultGroup, graphNodes := [], heap := fun _ => sampleNode }

/-- A world whose group is pinned. -/
def pinnedWorld : GraphWorld :=
  { group := pin defaultGroup, graphNodes := [], heap := fun _ => sampleNode }

/-- A world whose group caches node 0 as a member and whose graph holds
nodes 0 and 1. -/
def sampleWorld : GraphWorld :=
  { group := { defaultGroup with nodes := [0] }, graphNodes := [0, 1],
    heap := fun _ => sampleNode }

/-- Left edge of the union box of a nonempty node set. -/
def unionLeft (n0 : NodeState) (rest : List NodeState) : ℚ :=
  rest.foldl (fun a n => min a n.posx) n0.posx

/-- Top edge of the union box of a nonempty node set. -/
def unionTop (n0 : NodeState) (rest : List NodeState) : ℚ :=
  rest.foldl (fun a n => min a (nodeTop n)) (nodeTop n0)

/-- Right edge of the union box of a nonempty node set. -/
def unionRight (n0 : NodeState) (rest : List NodeState) : ℚ :=
  rest.foldl (fun a n => max a (nodeRight n)) (nodeRight n0)

/-- Bottom edge of the union box of a nonempty node set. -/
def unionBottom (n0 : NodeState) (rest : List NodeState) : ℚ :=
  rest.foldl (fun a n => max a (nodeBottom n)) (nodeBottom n0)

/-- Positive-area intersection of the group box and the box a node
reports, stated over the rationals. -/
abbrev overlapsQ (gx gy gw gh : ℚ) (n : NodeState) : Prop :=
  max gx n.boundX < min (gx + gw) (n.boundX + n.boundW) ∧
  max gy n.boundY < min (gy + gh) (n.boundY + n.boundH)

theorem foldFit_left (l : List NodeState) (acc : FitBounds) :
    (l.foldl fitStep acc).left
      = l.foldl (fun a n => emin a (.fin n.posx)) acc.left := by
  induction l generalizing acc with
  | nil => rfl
  | cons n t ih => exact ih (fitStep acc n)

theorem foldFit_top (l : List NodeState) (acc : FitBounds) :
    (l.foldl fitStep acc).top
      = l.foldl (fun a n => emin a (.fin (nodeTop n))) acc.top := by
  induction l generalizing acc with
  | nil => rfl
  | cons n t ih => exact ih (fitStep acc n)

theorem foldFit_right (l : List NodeState) (acc : FitBounds) :
    (l.foldl fitStep acc).right
      = l.foldl (fun a n => emax a (.fin (nodeRight n))) acc.right := by
  induction l generalizing acc with
  | nil => rfl
  | cons n t ih => exact ih (fitStep acc n)

theorem foldFit_bottom (l : List NodeState) (acc : FitBounds) :
    (l.foldl fitStep acc).bottom
      = l.foldl (fun a n => emax a (.fin (nodeBottom n))) acc.bottom := by
  induction l generalizing acc with
  | nil => rfl
  | cons n t ih => exact ih (fitStep acc n)

theorem foldl_emin_fin (l : List NodeState) (f : NodeState → ℚ) (a : ℚ) :
    l.foldl (fun acc n => emin acc (.fin (f n))) (.fin a)
      = .fin (l.foldl (fun acc n => min acc (f n)) a) := by
  induction l generalizing a with
  | nil => rfl
  | cons n t ih => exact ih (min a (f n))

theorem foldl_emax_fin (l : List NodeState) (f : NodeState → ℚ) (a : ℚ) :
    l.foldl (fun acc n => emax acc (.fin (f n))) (.fin a)
      = .fin (l.foldl (fun acc n => max acc (f n)) a) := by
  induction l generalizing a with
  | nil => rfl
  | cons n t ih => exact ih (max a (f n))

theorem fitFold_cons (w : GraphWorld) (ids : List ℕ) (n0 : NodeState)
    (rest : List NodeState)
    (hc : (w.group.nodes ++ ids).map w.heap = n0 :: rest) :
    fitFold w ids = ⟨.fin (unionLeft n0 rest), .fin (unionTop n0 rest),
                     .fin (unionRight n0 rest), .fin (unionBottom n0 rest)⟩ := by
  have hL : (fitFold w ids).left = .fin (unionLeft n0 rest) := by
    unfold fitFold
    rw [hc, foldFit_left]
    exact foldl_emin_fin rest (fun n => n.posx) n0.posx
  have hT : (fitFold w ids).top = .fin (unionTop n0 rest) := by
    unfold fitFold
    rw [hc, foldFit_top]
    exact foldl_emin_fin rest (fun n => nodeTop n) (nodeTop n0)
  have hR : (fitFold w ids).right = .fin (unionRight n0 rest) := by
    unfold fitFold
    rw [hc, foldFit_right]
    exact foldl_emax_fin rest (fun n => nodeRight n) (nodeRight n0)
  have hB : (fitFold w ids).bottom = .fin (unionBottom n0 rest) := by
    unfold fitFold
    rw [hc, foldFit_bottom]
    exact foldl_emax_fin rest (fun n => nodeBottom n) (nodeBottom n0)
  have he : fitFold w ids = ⟨(fitFold w ids).left, (fitFold w ids).top,
      (fitFold w ids).right, (fitFold w ids).bottom⟩ := rfl
  rw [he, hL, hT, hR, hB]

/-- Claim C1: on a nonempty combined node set, addNodes computes each
effective node edge (raw x; top lowered by the title constant except for
the Reroute kind; collapsed bottom at title height; collapsed right from
the rounded collapsed-width hint), folds them by min and max into a union
box, then stores position (unionLeft minus padding, unionTop minus padding
minus the group title height) and the clamped size (width plus twice the
padding, height plus twice the padding plus the group title height). -/
theorem addNodes_fits_union (w : GraphWorld) (ids : List ℕ) (p : ℚ)
    (n0 : NodeState) (rest : List NodeState)
    (hc : (w.group.nodes ++ ids).map w.heap = n0 :: rest) :
    (addNodes w ids p).group.bounding =
      ⟨.fin (unionLeft n0 rest - p),
       .fin (unionTop n0 rest - p - titleHeight w.group),
       .fin (max 140 (unionRight n0 rest - unionLeft n0 rest + p * 2)),
       .fin (max 80 (unionBottom n0 rest - unionTop n0 rest + p * 2
         + titleHeight w.group))⟩ := by
  unfold addNodes
  rw [fitFold_cons w ids n0 rest hc]
  rfl

/-- Witness for claim C1: one ordinary node at (100, 100) of size
(80, 40); with padding 10 and the default font the fitted group sits at
(90, 26.4) with size (140, 123.6), the width having been clamped up. -/
theorem addNodes_fits_union_witness :
    (emptyWorld.group.nodes ++ [0]).map emptyWorld.heap = [sampleNode]
  ∧ (addNodes emptyWorld [0] 10).group.bounding =
      ⟨.fin 90, .fin (132 / 5), .fin 140, .fin (618 / 5)⟩ :=
  ⟨rfl, (addNodes_fits_union emptyWorld [0] 10 sampleNode [] rfl).trans
    (by
      have hs : (("Basic" : String) = "Reroute") ↔ False := by simp
      norm_num [unionLeft, unionTop, unionRight, unionBottom, nodeTop,
        nodeRight, nodeBottom, sampleNode, titleHeight, emptyWorld,
        defaultGroup, NODE_TITLE_HEIGHT, hs, max_def])⟩

theorem overlapBounding_fin (gx gy gw gh : ℚ) (n : NodeState) :
    overlapBounding ⟨.fin gx, .fin gy, .fin gw, .fin gh⟩ (nodeBounding n)
      = decide (overlapsQ gx gy gw gh n) := by
  simp [overlapBounding, nodeBounding, overlapsQ, elt, emax, emin, eadd,
    Bool.decide_and]

/-- Claim C4: after recomputeInsideNodes the member cache is exactly the
graph node list filtered by positive-area intersection with the group box,
in graph order and independent of the prior cache; no node state and no
other group field changes. -/
theorem recompute_members_exact (w : GraphWorld) (gx gy gw gh : ℚ)
    (hb : w.group.bounding = ⟨.fin gx, .fin gy, .fin gw, .fin gh⟩) :
    (recomputeInsideNodes w).group.nodes
      = w.graphNodes.filter (fun i => decide (overlapsQ gx gy gw gh (w.heap i)))
  ∧ (∀ i : ℕ, i ∈ (recomputeInsideNodes w).group.nodes
      ↔ i ∈ w.graphNodes ∧ overlapsQ gx gy gw gh (w.heap i))
  ∧ (recomputeInsideNodes w).heap = w.heap
  ∧ (recomputeInsideNodes w).graphNodes = w.graphNodes
  ∧ (recomputeInsideNodes w).group.bounding = w.group.bounding
  ∧ (recomputeInsideNodes w).group.title = w.group.title
  ∧ (recomputeInsideNodes w).group.color = w.group.color
  ∧ (recomputeInsideNodes w).group.font_size = w.group.font_size
  ∧ (recomputeInsideNodes w).group.flags = w.group.flags := by
  have hfilter : (recomputeInsideNodes w).group.nodes
      = w.graphNodes.filter
          (fun i => decide (overlapsQ gx gy gw gh (w.heap i))) := by
    unfold recomputeInsideNodes
    rw [hb]
    simp only [overlapBounding_fin]
  refine ⟨hfilter, ?_, rfl, rfl, rfl, rfl, rfl, rfl, rfl⟩
  intro i
  rw [hfilter]
  simp only [List.mem_filter, decide_eq_true_eq]

theorem foldShift_not_mem (l : List ℕ) (dx dy : ℚ) :
    ∀ (h0 : ℕ → NodeState) (j : ℕ), j ∉ l →
      l.foldl (fun h i => updateHeap h i dx dy) h0 j = h0 j := by
  induction l with
  | nil => intro h0 j _; rfl
  | cons a t ih =>
    intro h0 j hj
    have hja : j ≠ a := by
      rintro rfl
      exact hj (List.mem_cons_self j t)
    have hjt : j ∉ t := fun ht => hj (List.mem_cons_of_mem a ht)
    rw [List.foldl_cons, ih (updateHeap h0 a dx dy) j hjt]
    simp [updateHeap, hja]

theorem foldShift_mem (l : List ℕ) (dx dy : ℚ) :
    ∀ (h0 : ℕ → NodeState) (i : ℕ), i ∈ l → l.Nodup →
      l.foldl (fun h k => updateHeap h k dx dy) h0 i
        = shiftNode (h0 i) dx dy := by
  induction l with
  | nil => intro h0 i hi _; cases hi
  | cons a t ih =>
    intro h0 i hi hnd
    rw [List.foldl_cons]
    rcases List.mem_cons.mp hi with he | hit
    · subst he
      rw [foldShift_not_mem t dx dy (updateHeap h0 i dx dy) i
        (List.nodup_cons.mp hnd).1]
      simp [updateHeap]
    · have hia : i ≠ a := by
        rintro rfl
        exact (List.nodup_cons.mp hnd).1 hit
      rw [ih (updateHeap h0 a dx dy) i hit (List.nodup_cons.mp hnd).2]
      simp [updateHeap, hia]

/-- Claim C5: on an unpinned group, move with node dragging adds the delta
to the group position, adds the same delta to the position of every node
in the cached member list, and touches no other node and no other field. -/
theorem move_shifts_members (w : GraphWorld) (dx dy : ℚ)
    (hp : w.group.flags.pinned = false) (hnd : w.group.nodes.Nodup) :
    (moveW w dx dy false).group.bounding.b0 = eadd w.group.bounding.b0 (.fin dx)
  ∧ (moveW w dx dy false).group.bounding.b1 = eadd w.group.bounding.b1 (.fin dy)
  ∧ (moveW w dx dy false).group.bounding.b2 = w.group.bounding.b2
  ∧ (moveW w dx dy false).group.bounding.b3 = w.group.bounding.b3
  ∧ (moveW w dx dy false).group.nodes = w.group.nodes
  ∧ (moveW w dx dy false).group.title = w.group.title
  ∧ (moveW w dx dy false).group.color = w.group.color
  ∧ (moveW w dx dy false).group.font_size = w.group.font_size
  ∧ (moveW w dx dy false).group.flags = w.group.flags
  ∧ (moveW w dx dy false).graphNodes = w.graphNodes
  ∧ (∀ i ∈ w.group.nodes,
      (moveW w dx dy false).heap i = shiftNode (w.heap i) dx dy)
  ∧ (∀ j : ℕ, j ∉ w.group.nodes → (moveW w dx dy false).heap j = w.heap j) := by
  have hw : moveW w dx dy false =
      { w with
        group := { w.group with bounding := { w.group.bounding with
          b0 := eadd w.group.bounding.b0 (.fin dx),
          b1 := eadd w.group.bounding.b1 (.fin dy) } },
        heap := w.group.nodes.foldl
          (fun h i => updateHeap h i dx dy) w.heap } := by
    simp [moveW, hp]
  rw [hw]
  refine ⟨rfl, rfl, rfl, rfl, rfl, rfl, rfl, rfl, rfl, rfl, ?_, ?_⟩
  · intro i hi
    exact foldShift_mem w.group.nodes dx dy w.heap i hi hnd
  · intro j hj
    exact foldShift_not_mem w.group.nodes dx dy w.heap j hj

/-- Claim C9: the title-bar hit test is the inclusive rectangle test on the
group x, y, width and title height: the characterising equivalence, the
four corners inside, and points one unit above the top edge or one unit
below the title-bar bottom edge outside. -/
theorem titlebar_inclusive_rect (g : LGraphGroup) (gx gy gw gh x y : ℚ)
    (hb : g.bounding = ⟨.fin gx, .fin gy, .fin gw, .fin gh⟩)
    (hw : 0 ≤ gw) (hf : 0 ≤ g.font_size) :
    (isPointInTitlebar g x y = true
      ↔ (gx ≤ x ∧ x ≤ gx + gw ∧ gy ≤ y ∧ y ≤ gy + titleHeight g))
  ∧ isPointInTitlebar g gx gy = true
  ∧ isPointInTitlebar g (gx + gw) gy = true
  ∧ isPointInTitlebar g gx (gy + titleHeight g) = true
  ∧ isPointInTitlebar g (gx + gw) (gy + titleHeight g) = true
  ∧ isPointInTitlebar g gx (gy - 1) = false
  ∧ isPointInTitlebar g gx (gy + titleHeight g + 1) = false := by
  have hth : 0 ≤ titleHeight g := by
    unfold titleHeight
    exact mul_nonneg hf (by norm_num)
  have key : ∀ a b : ℚ, isPointInTitlebar g a b = true ↔
      (gx ≤ a ∧ a ≤ gx + gw ∧ gy ≤ b ∧ b ≤ gy + titleHeight g) := by
    intro a b
    simp [isPointInTitlebar, isInsideRectangle, hb, ele, eadd, and_assoc]
  refine ⟨key x y, ?_, ?_, ?_, ?_, ?_, ?_⟩
  · exact (key gx gy).mpr ⟨le_refl gx, by linarith, le_refl gy, by linarith⟩
  · exact (key (gx + gw) gy).mpr ⟨by linarith, le_refl _, le_refl gy, by linarith⟩
  · exact (key gx (gy + titleHeight g)).mpr
      ⟨le_refl gx, by linarith, by linarith, le_refl _⟩
  · exact (key (gx + gw) (gy + titleHeight g)).mpr
      ⟨by linarith, le_refl _, by linarith, le_refl _⟩
  · refine Bool.eq_false_iff.mpr ?_
    intro hcontra
    rcases (key gx (gy - 1)).mp hcontra with ⟨_, _, h3, _⟩
    linarith
  · refine Bool.eq_false_iff.mpr ?_
    intro hcontra
    rcases (key gx (gy + titleHeight g + 1)).mp hcontra with ⟨_, _, _, h4⟩
    linarith

/-- Witness for claim C4 at a concrete world: a group box at (10, 10) of
size (140, 80) over a two-node graph. -/
theorem recompute_members_witness :
    sampleWorld.group.bounding = ⟨.fin 10, .fin 10, .fin 140, .fin 80⟩
  ∧ ((recomputeInsideNodes sampleWorld).group.nodes
      = sampleWorld.graphNodes.filter
          (fun i => decide (overlapsQ 10 10 140 80 (sampleWorld.heap i)))
    ∧ (∀ i : ℕ, i ∈ (recomputeInsideNodes sampleWorld).group.nodes
        ↔ i ∈ sampleWorld.graphNodes
          ∧ overlapsQ 10 10 140 80 (sampleWorld.heap i))
    ∧ (recomputeInsideNodes sampleWorld).heap = sampleWorld.heap
    ∧ (recomputeInsideNodes sampleWorld).graphNodes = sampleWorld.graphNodes
    ∧ (recomputeInsideNodes sampleWorld).group.bounding
        = sampleWorld.group.bounding
    ∧ (recomputeInsideNodes sampleWorld).group.title = sampleWorld.group.title
    ∧ (recomputeInsideNodes sampleWorld).group.color = sampleWorld.group.color
    ∧ (recomputeInsideNodes sampleWorld).group.font_size
        = sampleWorld.group.font_size
    ∧ (recomputeInsideNodes sampleWorld).group.flags
        = sampleWorld.group.flags) :=
  ⟨rfl, recompute_members_exact sampleWorld 10 10 140 80 rfl⟩

/-- Witness for claim C5 at a concrete world: an unpinned group caching
node 0 as its only member, moved by (7, -3). -/
theorem move_shifts_members_witness :
    sampleWorld.group.flags.pinned = false
  ∧ sampleWorld.group.nodes.Nodup
  ∧ ((moveW sampleWorld 7 (-3) false).group.bounding.b0
        = eadd sampleWorld.group.bounding.b0 (.fin 7)
    ∧ (moveW sampleWorld 7 (-3) false).group.bounding.b1
        = eadd sampleWorld.group.bounding.b1 (.fin (-3))
    ∧ (moveW sampleWorld 7 (-3) false).group.bounding.b2
        = sampleWorld.group.bounding.b2
    ∧ (moveW sampleWorld 7 (-3) false).group.bounding.b3
        = sampleWorld.group.bounding.b3
    ∧ (moveW sampleWorld 7 (-3) false).group.nodes = sampleWorld.group.nodes
    ∧ (moveW sampleWorld 7 (-3) false).group.title = sampleWorld.group.title
    ∧ (moveW sampleWorld 7 (-3) false).group.color = sampleWorld.group.color
    ∧ (moveW sampleWorld 7 (-3) false).group.font_size
        = sampleWorld.group.font_size
    ∧ (moveW sampleWorld 7 (-3) false).group.flags = sampleWorld.group.flags
    ∧ (moveW sampleWorld 7 (-3) false).graphNodes = sampleWorld.graphNodes
    ∧ (∀ i ∈ sampleWorld.group.nodes,
        (moveW sampleWorld 7 (-3) false).heap i
          = shiftNode (sampleWorld.heap i) 7 (-3))
    ∧ (∀ j : ℕ, j ∉ sampleWorld.group.nodes →
        (moveW sampleWorld 7 (-3) false).heap j = sampleWorld.heap j)) :=
  ⟨rfl, by decide, move_shifts_members sampleWorld 7 (-3) rfl (by decide)⟩

/-- Witness for claim C9 at the freshly constructed group: box (10, 10,
140, 80), nonnegative width and font size, probe point (12, 20). -/
theorem titlebar_inclusive_rect_witness :
    defaultGroup.bounding = ⟨.fin 10, .fin 10, .fin 140, .fin 80⟩
  ∧ (0 : ℚ) ≤ 140
  ∧ (0 : ℚ) ≤ defaultGroup.font_size
  ∧ ((isPointInTitlebar defaultGroup 12 20 = true
      ↔ ((10 : ℚ) ≤ 12 ∧ (12 : ℚ) ≤ 10 + 140 ∧ (10 : ℚ) ≤ 20
         ∧ (20 : ℚ) ≤ 10 + titleHeight defaultGroup))
    ∧ isPointInTitlebar defaultGroup 10 10 = true
    ∧ isPointInTitlebar defaultGroup (10 + 140) 10 = true
    ∧ isPointInTitlebar defaultGroup 10 (10 + titleHeight defaultGroup) = true
    ∧ isPointInTitlebar defaultGroup (10 + 140)
        (10 + titleHeight defaultGroup) = true
    ∧ isPointInTitlebar defaultGroup 10 (10 - 1) = false
    ∧ isPointInTitlebar defaultGroup 10
        (10 + titleHeight defaultGroup + 1) = false) :=
  ⟨rfl, by norm_num, by norm_num [defaultGroup],
   titlebar_inclusive_rect defaultGroup 10 10 140 80 12 20 rfl
     (by norm_num) (by norm_num [defaultGroup])⟩

/-- Claim C6: assigning a pair of at least two components through the size
setter stores exactly (max 140 w, max 80 h) and touches nothing else; a
missing or too-short input is silently ignored, leaving the group
unchanged. -/
theorem setSize_clamps_and_ignores_short (g : LGraphGroup) (w h : ℚ)
    (rest : List ERat) (a : ERat) :
    (setSize g (some (.fin w :: .fin h :: rest))).bounding.b2 = .fin (max 140 w)
  ∧ (setSize g (some (.fin w :: .fin h :: rest))).bounding.b3 = .fin (max 80 h)
  ∧ (setSize g (some (.fin w :: .fin h :: rest))).bounding.b0 = g.bounding.b0
  ∧ (setSize g (some (.fin w :: .fin h :: rest))).bounding.b1 = g.bounding.b1
  ∧ (setSize g (some (.fin w :: .fin h :: rest))).title = g.title
  ∧ (setSize g (some (.fin w :: .fin h :: rest))).color = g.color
  ∧ (setSize g (some (.fin w :: .fin h :: rest))).font_size = g.font_size
  ∧ (setSize g (some (.fin w :: .fin h :: rest))).flags = g.flags
  ∧ (setSize g (some (.fin w :: .fin h :: rest))).nodes = g.nodes
  ∧ setSize g none = g
  ∧ setSize g (some []) = g
  ∧ setSize g (some [a]) = g :=
  ⟨rfl, rfl, rfl, rfl, rfl, rfl, rfl, rfl, rfl, rfl, rfl, rfl⟩

/-- Claim C7: on an unpinned group, resize stores exactly the given width
and height into slots 2 and 3 with no minimum clamping, and changes
nothing else. -/
theorem resize_unpinned_stores_exact (w : GraphWorld) (width height : ℚ)
    (hp : w.group.flags.pinned = false) :
    (resizeW w width height).group.bounding.b2 = .fin width
  ∧ (resizeW w width height).group.bounding.b3 = .fin height
  ∧ (resizeW w width height).group.bounding.b0 = w.group.bounding.b0
  ∧ (resizeW w width height).group.bounding.b1 = w.group.bounding.b1
  ∧ (resizeW w width height).group.title = w.group.title
  ∧ (resizeW w width height).group.color = w.group.color
  ∧ (resizeW w width height).group.font_size = w.group.font_size
  ∧ (resizeW w width height).group.flags = w.group.flags
  ∧ (resizeW w width height).group.nodes = w.group.nodes
  ∧ (resizeW w width height).graphNodes = w.graphNodes
  ∧ (resizeW w width height).heap = w.heap := by
  simp [resizeW, hp]

/-- Witness for claim C7 at a concrete unpinned world, with a size below
both minimums stored as given. -/
theorem resize_unpinned_witness :
    emptyWorld.group.flags.pinned = false
  ∧ ((resizeW emptyWorld 50 60).group.bounding.b2 = .fin 50
   ∧ (resizeW emptyWorld 50 60).group.bounding.b3 = .fin 60
   ∧ (resizeW emptyWorld 50 60).group.bounding.b0 = emptyWorld.group.bounding.b0
   ∧ (resizeW emptyWorld 50 60).group.bounding.b1 = emptyWorld.group.bounding.b1
   ∧ (resizeW emptyWorld 50 60).group.title = emptyWorld.group.title
   ∧ (resizeW emptyWorld 50 60).group.color = emptyWorld.group.color
   ∧ (resizeW emptyWorld 50 60).group.font_size = emptyWorld.group.font_size
   ∧ (resizeW emptyWorld 50 60).group.flags = emptyWorld.group.flags
   ∧ (resizeW emptyWorld 50 60).group.nodes = emptyWorld.group.nodes
   ∧ (resizeW emptyWorld 50 60).graphNodes = emptyWorld.graphNodes
   ∧ (resizeW emptyWorld 50 60).heap = emptyWorld.heap) :=
  ⟨rfl, resize_unpinned_stores_exact emptyWorld 50 60 rfl⟩

/-- Claim C8: loading the serialized record of a group into any group
reproduces title, color and flags exactly and the bounding up to the
rounding serialize applied; the font size is reproduced exactly when it was
truthy, and a zero font size leaves the pre-load font size in place. -/
theorem configure_serialize_roundtrip (g gPrev : LGraphGroup) :
    (configure gPrev (serialize g)).title = g.title
  ∧ (configure gPrev (serialize g)).color = g.color
  ∧ (configure gPrev (serialize g)).flags = g.flags
  ∧ (configure gPrev (serialize g)).bounding =
      ⟨eround g.bounding.b0, eround g.bounding.b1,
       eround g.bounding.b2, eround g.bounding.b3⟩
  ∧ (configure gPrev (serialize g)).font_size =
      (if g.font_size ≠ 0 then g.font_size else gPrev.font_size) :=
  ⟨rfl, rfl, rfl, rfl, rfl⟩

/-- Claim C10: addNodes only rewrites the group position and size slots:
the cached member list, title, color, flags, font size, the graph node
list, and the state of every node are untouched. -/
theorem addNodes_frame (w : GraphWorld) (ids : List ℕ) (p : ℚ) :
    (addNodes w ids p).group.nodes = w.group.nodes
  ∧ (addNodes w ids p).group.title = w.group.title
  ∧ (addNodes w ids p).group.color = w.group.color
  ∧ (addNodes w ids p).group.flags = w.group.flags
  ∧ (addNodes w ids p).group.font_size = w.group.font_size
  ∧ (addNodes w ids p).heap = w.heap
  ∧ (addNodes w ids p).graphNodes = w.graphNodes :=
  ⟨rfl, rfl, rfl, rfl, rfl, rfl, rfl⟩

/-- Claim C2, behaviour of the code at the failing input: calling addNodes
with no supplied nodes on a group with an empty member list is not a no-op.
The guard on the member array never fires (an array is always truthy), so
the empty reduce leaves infinities in the accumulator: the position becomes
(posInf, posInf) and the size collapses to the clamp minimums, changing the
bounding of the freshly constructed group. -/
theorem addNodes_empty_not_noop :
    (addNodes emptyWorld [] 10).group.bounding
      = ⟨.posInf, .posInf, .fin 140, .fin 80⟩
  ∧ (addNodes emptyWorld [] 10).group.bounding ≠ emptyWorld.group.bounding :=
  ⟨rfl, by decide⟩

/-- Claim C3: every sequence of move and resize commands on a pinned group
is a complete no-op: the whole world, group geometry and every node
included, is unchanged. -/
theorem pinned_ops_noop (w : GraphWorld) (ops : List GroupOp)
    (hp : w.group.flags.pinned = true) :
    ops.foldl applyOp w = w := by
  induction ops with
  | nil => rfl
  | cons op t ih =>
    have h1 : applyOp w op = w := by
      cases op with
      | move dx dy ig => simp [applyOp, moveW, hp]
      | resize a b => simp [applyOp, resizeW, hp]
    rw [List.foldl_cons, h1]
    exact ih

/-- Witness for claim C3: a concrete pinned world and a concrete sequence
of move and resize commands. -/
theorem pinned_ops_noop_witness :
    pinnedWorld.group.flags.pinned = true
  ∧ [GroupOp.move 3 4 false, GroupOp.resize 5 6,
     GroupOp.move (-2) 7 true].foldl applyOp pinnedWorld = pinnedWorld :=
  ⟨rfl, pinned_ops_noop pinnedWorld
    [GroupOp.move 3 4 false, GroupOp.resize 5 6, GroupOp.move (-2) 7 true]
    rfl⟩

end LiteGraph
